import Mathlib

/-
Verification of the polynomial evaluation / quadrature core of the
Effective-Quadratures repository (equadratures/poly.py), shallowly embedded
over exact rational arithmetic.  Matrices are lists of rows; the external
Parameter and Basis collaborators are modelled from the boundary contracts
the specification states for them (orthogonal-polynomial tables, 1-D
quadrature rules, sampling, per-dimension order bookkeeping).
-/

namespace EQPoly

/-- Modelled from the spec: the Parameter capability (spec section 6).  A
univariate distribution descriptor exposing its kind, bounds, requested
order, orthogonal-polynomial value and derivative evaluation, 1-D
quadrature node/weight generation, and random sampling.  The value and
derivative families and the quadrature generator are kept abstract
(function fields); the core never looks inside them. -/
structure Parameter where
  param_type : String
  lower : ℚ
  upper : ℚ
  order : ℕ
  orthoVal : ℕ → ℚ → ℚ
  orthoDeriv : ℕ → ℚ → ℚ
  localQuadPoints : ℕ → List ℚ
  localQuadWeights : ℕ → List ℚ
  getSamples : ℕ → List ℚ
deriving Inhabited

/-- Modelled from the spec: Parameter._getOrthoPoly(points, maxDegree)
returns the pair of tables (values, derivatives), each with one row per
degree 0 .. maxDegree and one column per point (spec section 6). -/
def Parameter.getOrthoPoly (prm : Parameter) (pts : List ℚ) (maxDeg : ℕ) :
    List (List ℚ) × List (List ℚ) :=
  ((List.range (maxDeg + 1)).map (fun deg => pts.map (prm.orthoVal deg)),
   (List.range (maxDeg + 1)).map (fun deg => pts.map (prm.orthoDeriv deg)))

/-- Modelled from the spec: _getOrthoPoly called without an explicit maximum
degree defaults to the Parameter's requested order (spec section 6 exposes
the requested order; the d = 1 gradient shortcut calls it this way). -/
def Parameter.getOrthoPolyDefault (prm : Parameter) (pts : List ℚ) :
    List (List ℚ) × List (List ℚ) :=
  prm.getOrthoPoly pts prm.order

/-- Modelled from the spec: the Basis capability holds the ordered
multi-index table (one row per term, one column per dimension) and the
per-dimension orders vector (spec sections 3 and 6). -/
structure Basis where
  elements : List (List ℕ)
  orders : List ℕ
deriving DecidableEq

/-- Modelled from the spec: Basis.setOrders records the supplied
per-dimension orders on the basis (the per-dimension order bookkeeping the
spec assigns to the Basis capability; called by Poly.__init__). -/
def Basis.setOrders (b : Basis) (os : List ℕ) : Basis :=
  { b with orders := os }

/-- The core object of poly.py: a Parameter list, a Basis, and the
optionally-set coefficient vector and design matrix (both unset until an
external fitting routine writes them). -/
structure Poly where
  parameters : List Parameter
  basis : Basis
  coefficients : Option (List ℚ)
  designMatrix : Option (List (List ℚ))

/-- poly.py line 19: self.dimensions = len(parameters). -/
def Poly.dimensions (P : Poly) : ℕ := P.parameters.length

/-- poly.py lines 20-22: self.orders collects each parameter's order. -/
def Poly.orders (P : Poly) : List ℕ := P.parameters.map (fun prm => prm.order)

/-- Poly.__init__ (poly.py lines 16-23): store the parameter list, store the
basis and call setOrders on it with the parameters' orders; coefficients and
design matrix start unset.  The basis field holds the post-setOrders state
of the (aliased) Basis object. -/
def mkPoly (parameters : List Parameter) (basis : Basis) : Poly :=
  { parameters := parameters,
    basis := basis.setOrders (parameters.map (fun prm => prm.order)),
    coefficients := none,
    designMatrix := none }

/-- Poly.clone (poly.py lines 49-58): type(self)(self.parameters, self.basis),
i.e. re-run the constructor on the same parameter list and basis. -/
def Poly.clone (P : Poly) : Poly := mkPoly P.parameters P.basis

/-- The per-entry transform of Poly.scaleInputs (poly.py lines 76-79): the
Uniform and Beta affine maps, everything else untouched. -/
def scaleOne (prm : Parameter) (v : ℚ) : ℚ :=
  if prm.param_type = "Uniform" then
    2 * ((v - prm.lower) / (prm.upper - prm.lower)) - 1
  else if prm.param_type = "Beta" then
    (v - prm.lower) / (prm.upper - prm.lower)
  else v

/-- Poly.scaleInputs (poly.py lines 60-80): copy the input matrix and
rescale column i, for i below self.dimensions, by parameter i's transform;
columns at or beyond the dimension count are left as copied. -/
def Poly.scaleInputs (P : Poly) (x : List (List ℚ)) : List (List ℚ) :=
  x.map (fun row => row.mapIdx (fun i v =>
    match P.parameters[i]? with
    | some prm => scaleOne prm v
    | none => v))

/-- Column k of a points matrix (stackOfPoints[:, k]). -/
def col (x : List (List ℚ)) (k : ℕ) : List ℚ :=
  x.map (fun row => row.getD k 0)

/-- np.max over column k of the multi-index table (np.max(basis[:, k])). -/
def maxCol (basis : List (List ℕ)) (k : ℕ) : ℕ :=
  (basis.map (fun row => row.getD k 0)).foldr max 0

/-- np.max over the whole multi-index table (np.max(basis)). -/
def maxAll (basis : List (List ℕ)) : ℕ :=
  (basis.map (fun row => row.foldr max 0)).foldr max 0

/-- Poly.getPolynomial (poly.py lines 82-106).  dimensions is read off the
basis table's column count.  When it is 1 the univariate value table is
returned directly (the stacked points are the single column).  Otherwise,
per dimension k the value table up to degree max(basis[:, k]) is obtained,
and row i of the output is built by the temp-product loop: starting from a
row of ones, multiply pointwise by table row basis[i, k] for k = 0 .. d-1.
The parameter lookups use indexing defaults, modelling the executions whose
indices stay in range; a basis column count exceeding the parameter count
raises IndexError in the source, which Poly.evaluatePolyFit surfaces. -/
def Poly.getPolynomial (P : Poly) (pts : List (List ℚ)) : List (List ℚ) :=
  let basis := P.basis.elements
  let dims := (basis.headD []).length
  let n := pts.length
  if dims = 1 then
    ((P.parameters.headD default).getOrthoPoly (col pts 0) (maxAll basis)).1
  else
    let p : ℕ → List (List ℚ) := fun k =>
      ((P.parameters.getD k default).getOrthoPoly (col pts k) (maxCol basis k)).1
    basis.map (fun row =>
      (List.range dims).foldl
        (fun temp k => List.zipWith (fun a b => a * b) ((p k).getD (row.getD k 0) []) temp)
        (List.replicate n 1))

/-- Result type of getPolynomialGradient: the d = 1 shortcut returns a
single matrix while the multivariate path returns one matrix per
partial-derivative direction. -/
inductive GradResult where
  | univariate : List (List ℚ) → GradResult
  | multivariate : List (List (List ℚ)) → GradResult
deriving DecidableEq

/-- The multivariate body of Poly.getPolynomialGradient (poly.py lines
120-141): per dimension, value and derivative tables up to degree
max(basis[:, k]) + 1; for direction v the temp-product loop uses the
derivative table on dimension v and the value table elsewhere. -/
def Poly.gradTensor (P : Poly) (pts : List (List ℚ)) : List (List (List ℚ)) :=
  let basis := P.basis.elements
  let dims := (basis.headD []).length
  let n := pts.length
  let p : ℕ → List (List ℚ) := fun k =>
    ((P.parameters.getD k default).getOrthoPoly (col pts k) (maxCol basis k + 1)).1
  let dp : ℕ → List (List ℚ) := fun k =>
    ((P.parameters.getD k default).getOrthoPoly (col pts k) (maxCol basis k + 1)).2
  (List.range dims).map (fun v =>
    basis.map (fun row =>
      (List.range dims).foldl
        (fun temp k =>
          List.zipWith (fun a b => a * b)
            ((if k = v then dp k else p k).getD (row.getD k 0) []) temp)
        (List.replicate n 1)))

/-- Poly.getPolynomialGradient (poly.py lines 108-141).  When the basis
column count is 1, the code takes the shortcut: it calls _getOrthoPoly with
the default maximum degree, keeps the first component of the returned pair
(the plain values, discarding the derivatives) and returns that matrix.
Otherwise it returns the list of per-direction gradient matrices.  The
parameter lookups use indexing defaults, modelling the executions whose
indices stay in range; a basis column count exceeding the parameter count
raises IndexError in the source, which Poly.evaluatePolyGradFit surfaces. -/
def Poly.getPolynomialGradient (P : Poly) (pts : List (List ℚ)) : GradResult :=
  let basis := P.basis.elements
  let dims := (basis.headD []).length
  if dims = 1 then
    .univariate ((P.parameters.headD default).getOrthoPolyDefault (col pts 0)).1
  else
    .multivariate (P.gradTensor pts)

/-- np.kron on two 1-D arrays: entry i*len(b)+j is a[i]*b[j]. -/
def npKronVec (a b : List ℚ) : List ℚ :=
  a.flatMap (fun x => b.map (fun y => x * y))

/-- np.kron(pp, ones((n, 1))) on a 2-D pp: each row repeated n times. -/
def kronRows (pp : List (List ℚ)) (n : ℕ) : List (List ℚ) :=
  pp.flatMap (fun row => List.replicate n row)

/-- np.kron(ones((N, 1)), pts) on a column pts: the column tiled N times. -/
def tileVec (N : ℕ) (pts : List ℚ) : List ℚ :=
  (List.replicate N pts).flatten

/-- One iteration of the tensor-product point construction in
getTensorQuadratureRule (poly.py lines 160-164): left_side = kron(pp, ones),
right_side = kron(ones, local_points), then concatenate along axis 1. -/
def tensorStep (pp : List (List ℚ)) (pts : List ℚ) : List (List ℚ) :=
  List.zipWith (fun row x => row ++ [x]) (kronRows pp pts.length) (tileVec pp.length pts)

/-- Poly.getTensorQuadratureRule (poly.py lines 143-171): starting from
pp = [1.0] and ww = [1.0], fold across the dimensions, combining weights by
np.kron and points by the tensor step; finally drop the seed first column
of pp. -/
def Poly.getTensorQuadratureRule (P : Poly) (orders : Option (List ℕ)) :
    List (List ℚ) × List ℚ :=
  let ords := orders.getD P.orders
  let s := (List.range P.dimensions).foldl
    (fun (s : List (List ℚ) × List ℚ) u =>
      let prm := P.parameters.getD u default
      (tensorStep s.1 (prm.localQuadPoints (ords.getD u 0 + 1)),
       npKronVec s.2 (prm.localQuadWeights (ords.getD u 0 + 1))))
    ([[1]], [1])
  (s.1.map (fun r => r.drop 1), s.2)

/-- Written from the spec's words for the refinement claim on the tensor
grid: the Kronecker product of the per-dimension weight vectors, combined
left to right (resulting weight count = product of per-dimension counts). -/
def specKronWeights : List (List ℚ) → List ℚ
  | [] => [1]
  | ws :: rest => npKronVec ws (specKronWeights rest)

/-- Written from the spec's words for the refinement claim on the tensor
grid: the cartesian-product point matrix with one row per combination and
one column per dimension, where the column added at step k varies fastest
within that step's expansion and previously-combined dimensions vary
slower (earlier dimensions are the outer, slower loops). -/
def specTensorPoints : List (List ℚ) → List (List ℚ)
  | [] => [[]]
  | ps :: rest => ps.flatMap (fun x => (specTensorPoints rest).map (fun t => x :: t))

/-- Outcome of a Python call: a returned value, a bare (implicit) None
return, or a raised exception carrying its kind. -/
inductive PyResult (α : Type) where
  | ok : α → PyResult α
  | noneVal : PyResult α
  | exn : String → PyResult α
deriving DecidableEq

/-- Whether a Python outcome is a raised exception. -/
def PyResult.isError {α : Type} : PyResult α → Bool
  | .exn _ => true
  | _ => false

/-- ASCII lower-casing of one character (the effect of Python str.lower on
the option strings the code compares against). -/
def lowerChar (c : Char) : Char :=
  if 65 ≤ c.toNat ∧ c.toNat ≤ 90 then Char.ofNat (c.toNat + 32) else c

/-- Python str.lower on an option string, applied characterwise. -/
def pyLower (s : String) : String := ⟨s.data.map lowerChar⟩

/-- The fixed qmc sample count (poly.py line 185). -/
def defaultNumberOfPoints : ℕ := 20000

/-- The qmc point matrix of getQuadratureRule (poly.py lines 186-189):
N rows, one column per dimension, column i filled from parameter i's
samples. -/
def Poly.qmcPoints (P : Poly) (N : ℕ) : List (List ℚ) :=
  (List.range N).map (fun j =>
    (List.range P.dimensions).map (fun i =>
      ((P.parameters.getD i default).getSamples N).getD j 0))

/-- Poly.getQuadratureRule (poly.py lines 178-194).  A None options argument
is replaced by qmc when dimensions exceed 8 and by the tensor grid when
below 8 (at exactly 8 it stays None and the subsequent options.lower()
raises).  The qmc branch returns the sample matrix with uniform weights
1/N; the tensor-grid branch delegates with the basis orders doubled.  Any
other string matches neither branch and the function falls off the end,
returning None. -/
def Poly.getQuadratureRule (P : Poly) (options : Option String) :
    PyResult (List (List ℚ) × List ℚ) :=
  let opts : Option String :=
    match options with
    | none =>
      if P.dimensions > 8 then some "qmc"
      else if P.dimensions < 8 then some "tensor grid"
      else none
    | some s => some s
  match opts with
  | none => .exn "AttributeError"
  | some s =>
    if pyLower s = "qmc" then
      .ok (P.qmcPoints defaultNumberOfPoints,
           List.replicate defaultNumberOfPoints ((1 : ℚ) / defaultNumberOfPoints))
    else if pyLower s = "tensor grid" then
      .ok (P.getTensorQuadratureRule (some (P.basis.orders.map (fun i => 2 * i))))
    else .noneVal

/-- Transpose of a row-list matrix (numpy .T on the rectangular matrices the
core produces). -/
def transposeM (M : List (List ℚ)) : List (List ℚ) :=
  (List.range ((M.headD []).length)).map (fun j => M.map (fun r => r.getD j 0))

/-- Matrix product of row-list matrices (np.mat multiplication). -/
def matMul (A B : List (List ℚ)) : List (List ℚ) :=
  A.map (fun ra =>
    (List.range ((B.headD []).length)).map (fun j =>
      (List.zipWith (fun a b => a * b) ra (col B j)).sum))

/-- Poly.evaluatePolyFit (poly.py lines 206-207): the basis matrix at the
scaled points, transposed, times the coefficient column.  The basis-matrix
computation runs first and indexes parameters[i] for every i below the
basis column count (and parameters[0] on the one-column shortcut), so it
raises IndexError whenever that count exceeds the parameter list; only
afterwards is self.coefficients read, which raises on an instance that
never had them set (the condition the spec names NotFitted). -/
def Poly.evaluatePolyFit (P : Poly) (x : List (List ℚ)) : PyResult (List (List ℚ)) :=
  if (P.basis.elements.headD []).length ≤ P.parameters.length then
    match P.coefficients with
    | none => .exn "NotFitted"
    | some c =>
      .ok (matMul (transposeM (P.getPolynomial (P.scaleInputs x))) (c.map (fun v => [v])))
  else .exn "IndexError"

/-- H[i] for the gradient result: the i-th per-direction matrix in the
multivariate case, the i-th row (as a one-row matrix) in the univariate
shortcut case. -/
def gradComponent (H : GradResult) (i : ℕ) : List (List ℚ) :=
  match H with
  | .multivariate R => R.getD i []
  | .univariate M => [M.getD i []]

/-- Poly.evaluatePolyGradFit (poly.py lines 196-201): the gradient matrices
at the scaled points, each multiplied on the left by the coefficient row.
The gradient computation runs first, and its parameter indexing raises
IndexError whenever the basis column count exceeds the parameter list
(parameters[0] on the one-column shortcut, parameters[i] for i below the
column count otherwise); a zero-column basis performs no parameter access.
The coefficients are read inside the per-dimension loop, so with zero
dimensions the loop body never runs and unset coefficients go unnoticed;
otherwise unset coefficients raise (NotFitted) before any H[i] lookup. -/
def Poly.evaluatePolyGradFit (P : Poly) (x : List (List ℚ)) : PyResult (List (List ℚ)) :=
  if (P.basis.elements.headD []).length ≤ P.parameters.length then
    if P.dimensions = 0 then .ok []
    else
      match P.coefficients with
      | none => .exn "NotFitted"
      | some c =>
        .ok ((List.range P.dimensions).map (fun i =>
          (matMul [c]
            (gradComponent (P.getPolynomialGradient (P.scaleInputs x)) i)).headD []))
  else .exn "IndexError"

/-- A concrete Uniform-kind parameter used to exercise the theorems on
explicit inputs (monomial value family, simple derivative family). -/
def qA : Parameter :=
  { param_type := "Uniform", lower := 0, upper := 1, order := 1,
    orthoVal := fun deg x => x ^ deg,
    orthoDeriv := fun deg x => (deg : ℚ) * x,
    localQuadPoints := fun n => if n = 2 then [10, 20] else List.replicate n 0,
    localQuadWeights := fun n => if n = 2 then [1, 0] else List.replicate n 0,
    getSamples := fun n => List.replicate n ((1 : ℚ) / 2) }

/-- A concrete Beta-kind parameter for explicit inputs. -/
def qB : Parameter :=
  { param_type := "Beta", lower := 1, upper := 3, order := 2,
    orthoVal := fun deg x => x + deg,
    orthoDeriv := fun deg x => x - deg,
    localQuadPoints := fun n => if n = 3 then [1, 2, 3] else List.replicate n 0,
    localQuadWeights := fun n => if n = 3 then [0, 1, 0] else List.replicate n 0,
    getSamples := fun n => List.replicate n ((1 : ℚ) / 4) }

/-- A concrete parameter of an unrecognized distribution kind. -/
def qC : Parameter :=
  { param_type := "Gaussian", lower := 0, upper := 1, order := 1,
    orthoVal := fun deg x => x ^ deg,
    orthoDeriv := fun _ x => x,
    localQuadPoints := fun n => List.replicate n 0,
    localQuadWeights := fun n => List.replicate n 0,
    getSamples := fun n => List.replicate n 0 }

/-- A concrete two-dimensional basis (three terms). -/
def bas2 : Basis := ⟨[[0, 0], [1, 2], [2, 1]], [7]⟩

/-- A concrete one-dimensional basis. -/
def bas1 : Basis := ⟨[[0], [1]], [5]⟩

/-- A concrete zero-column basis (one empty row), the multi-index table a
zero-dimensional core object carries. -/
def bas0 : Basis := ⟨[[]], []⟩

/-- A concrete two-dimensional core object. -/
def poly2 : Poly := mkPoly [qA, qB] bas2

/-- A concrete three-dimensional core object (third column unscaled). -/
def poly3 : Poly := mkPoly [qA, qB, qC] ⟨[[0, 0, 0]], []⟩

/-- A concrete one-dimensional core object. -/
def poly1 : Poly := mkPoly [qB] bas1

lemma getD_map_range {α : Type} (f : ℕ → α) {N j : ℕ} (h : j < N) (d : α) :
    ((List.range N).map f).getD j d = f j := by
  rw [List.getD_eq_getElem _ _ (by simpa using h), List.getElem_map, List.getElem_range]

lemma getD_map_of_lt {α β : Type} [Inhabited β] (f : α → β) (l : List α) {j : ℕ}
    (h : j < l.length) (d0 : α) (d1 : β) :
    (l.map f).getD j d1 = f (l.getD j d0) := by
  rw [List.getD_eq_getElem _ _ (by simpa using h), List.getElem_map,
    List.getD_eq_getElem _ _ h]

lemma le_foldr_max {a : ℕ} {l : List ℕ} (h : a ∈ l) (b : ℕ) : a ≤ l.foldr max b := by
  induction l with
  | nil => cases h
  | cons hd tl ih =>
    rcases List.mem_cons.mp h with h1 | h2
    · rw [h1, List.foldr_cons]
      exact le_max_left hd (tl.foldr max b)
    · exact le_trans (ih h2) (le_max_right hd (tl.foldr max b))

lemma mem_le_maxCol {basis : List (List ℕ)} {r : List ℕ} (h : r ∈ basis) (k : ℕ) :
    r.getD k 0 ≤ maxCol basis k := by
  unfold maxCol
  exact le_foldr_max (List.mem_map_of_mem (fun row => row.getD k 0) h) 0

lemma foldl_zipWith_spec (v : ℕ → List ℚ) (n : ℕ) :
    ∀ d, (∀ k, k < d → (v k).length = n) →
      ((List.range d).foldl
          (fun temp k => List.zipWith (fun a b => a * b) (v k) temp)
          (List.replicate n 1)).length = n
      ∧ ∀ j, j < n →
          ((List.range d).foldl
              (fun temp k => List.zipWith (fun a b => a * b) (v k) temp)
              (List.replicate n 1)).getD j 0
            = ∏ k ∈ Finset.range d, (v k).getD j 0 := by
  intro d
  induction d with
  | zero =>
    intro _
    simp only [List.range_zero, List.foldl_nil]
    refine ⟨by simp, fun j hj => ?_⟩
    rw [List.getD_eq_getElem _ _ (by simp only [List.length_replicate]; exact hj)]
    simp
  | succ d ih =>
    intro hv
    have hvd : ∀ k, k < d → (v k).length = n := fun k hk => hv k (Nat.lt_succ_of_lt hk)
    obtain ⟨ihlen, ihget⟩ := ih hvd
    rw [List.range_succ, List.foldl_append]
    set prev := (List.range d).foldl
      (fun temp k => List.zipWith (fun a b => a * b) (v k) temp)
      (List.replicate n 1) with hprev
    have hlen : (List.zipWith (fun a b => a * b) (v d) prev).length = n := by
      rw [List.length_zipWith, ihlen, hv d (Nat.lt_succ_self d)]
      exact min_self n
    refine ⟨by simp only [List.foldl_cons, List.foldl_nil]; exact hlen, fun j hj => ?_⟩
    have hj1 : j < (List.zipWith (fun a b => a * b) (v d) prev).length := by
      rw [hlen]; exact hj
    have hj2 : j < (v d).length := by rw [hv d (Nat.lt_succ_self d)]; exact hj
    have hj3 : j < prev.length := by rw [ihlen]; exact hj
    simp only [List.foldl_cons, List.foldl_nil]
    rw [List.getD_eq_getElem _ _ hj1, List.getElem_zipWith,
      Finset.prod_range_succ, mul_comm]
    congr 1
    · rw [← List.getD_eq_getElem prev 0 hj3]
      exact ihget j hj
    · exact (List.getD_eq_getElem (v d) 0 hj2).symm

lemma headD_length_eq {basis : List (List ℕ)} {d : ℕ} (h0 : basis ≠ [])
    (h : ∀ r ∈ basis, r.length = d) : (basis.headD []).length = d := by
  cases basis with
  | nil => exact absurd rfl h0
  | cons b tl => exact h b (List.mem_cons_self b tl)

lemma orthoTable_getD (prm : Parameter) (ptsc : List ℚ) (M deg : ℕ) (h : deg ≤ M) :
    ((prm.getOrthoPoly ptsc M).1).getD deg [] = ptsc.map (prm.orthoVal deg) := by
  unfold Parameter.getOrthoPoly
  exact getD_map_range _ (Nat.lt_succ_of_le h) _

lemma orthoTable_getD_deriv (prm : Parameter) (ptsc : List ℚ) (M deg : ℕ) (h : deg ≤ M) :
    ((prm.getOrthoPoly ptsc M).2).getD deg [] = ptsc.map (prm.orthoDeriv deg) := by
  unfold Parameter.getOrthoPoly
  exact getD_map_range _ (Nat.lt_succ_of_le h) _

lemma length_col (pts : List (List ℚ)) (k : ℕ) : (col pts k).length = pts.length :=
  List.length_map _ _

lemma getPolynomial_multivariate {P : Poly} {d : ℕ} (pts : List (List ℚ))
    (h0 : P.basis.elements ≠ []) (hrows : ∀ r ∈ P.basis.elements, r.length = d)
    (hd : 2 ≤ d) :
    P.getPolynomial pts = P.basis.elements.map (fun row =>
      (List.range d).foldl
        (fun temp k => List.zipWith (fun a b => a * b)
          ((((P.parameters.getD k default).getOrthoPoly (col pts k)
              (maxCol P.basis.elements k)).1).getD (row.getD k 0) []) temp)
        (List.replicate pts.length 1)) := by
  have hdim : (P.basis.elements.headD []).length = d := headD_length_eq h0 hrows
  simp only [Poly.getPolynomial, hdim]
  rw [if_neg (by omega : ¬ d = 1)]

/-- C1: for a Basis table with m rows and d ≥ 2 columns and an n × d point
matrix, getPolynomial returns an m × n matrix whose entry (i, j) is the
product over dimensions k of the univariate orthogonal-polynomial value of
degree basis[i, k] at coordinate k of point j, with output row i matching
Basis row i. -/
theorem claim_C1 (P : Poly) (pts : List (List ℚ)) (d : ℕ)
    (h0 : P.basis.elements ≠ [])
    (hrows : ∀ r ∈ P.basis.elements, r.length = d)
    (hd : 2 ≤ d)
    (hpts : ∀ r ∈ pts, r.length = d) :
    (P.getPolynomial pts).length = P.basis.elements.length
    ∧ (∀ row ∈ P.getPolynomial pts, row.length = pts.length)
    ∧ ∀ i j, i < P.basis.elements.length → j < pts.length →
        ((P.getPolynomial pts).getD i []).getD j 0
          = ∏ k ∈ Finset.range d,
              (P.parameters.getD k default).orthoVal
                ((P.basis.elements.getD i []).getD k 0)
                ((pts.getD j []).getD k 0) := by
  have _hpts := hpts
  have hmap := getPolynomial_multivariate pts h0 hrows hd
  have key : ∀ r ∈ P.basis.elements, ∀ k, k < d →
      ((((P.parameters.getD k default).getOrthoPoly (col pts k)
          (maxCol P.basis.elements k)).1).getD (r.getD k 0) []).length = pts.length := by
    intro r hr k _
    rw [orthoTable_getD _ _ _ _ (mem_le_maxCol hr k)]
    simp [col]
  refine ⟨by rw [hmap]; exact List.length_map _ _, ?_, ?_⟩
  · intro row hrow
    rw [hmap] at hrow
    obtain ⟨r, hr, rfl⟩ := List.mem_map.mp hrow
    exact (foldl_zipWith_spec _ _ d (key r hr)).1
  · intro i j hi hj
    rw [hmap, getD_map_of_lt _ _ hi [] []]
    have hrmem : P.basis.elements.getD i [] ∈ P.basis.elements := by
      rw [List.getD_eq_getElem _ _ hi]
      exact List.getElem_mem hi
    rw [(foldl_zipWith_spec _ _ d (key _ hrmem)).2 j hj]
    refine Finset.prod_congr rfl (fun k _ => ?_)
    rw [orthoTable_getD _ _ _ _ (mem_le_maxCol hrmem k)]
    rw [getD_map_of_lt _ _ (by rw [length_col]; exact hj) 0 0]
    rw [col, getD_map_of_lt _ _ hj [] 0]

theorem claim_C1_witness :
    (poly2.getPolynomial [[2, 3], [1, 4]]).length = 3
    ∧ ((poly2.getPolynomial [[2, 3], [1, 4]]).getD 1 []).getD 0 0
        = ∏ k ∈ Finset.range 2,
            (poly2.parameters.getD k default).orthoVal
              ((poly2.basis.elements.getD 1 []).getD k 0)
              ((([[2, 3], [1, 4]] : List (List ℚ)).getD 0 []).getD k 0) := by
  have h := claim_C1 poly2 [[2, 3], [1, 4]] 2 (by decide) (by decide) (by decide) (by decide)
  exact ⟨h.1.trans (by decide), h.2.2 1 0 (by decide) (by decide)⟩

lemma gradTensor_eq {P : Poly} {d : ℕ} (pts : List (List ℚ))
    (h0 : P.basis.elements ≠ []) (hrows : ∀ r ∈ P.basis.elements, r.length = d) :
    P.gradTensor pts = (List.range d).map (fun v => P.basis.elements.map (fun row =>
      (List.range d).foldl
        (fun temp k => List.zipWith (fun a b => a * b)
          ((if k = v
              then ((P.parameters.getD k default).getOrthoPoly (col pts k)
                  (maxCol P.basis.elements k + 1)).2
              else ((P.parameters.getD k default).getOrthoPoly (col pts k)
                  (maxCol P.basis.elements k + 1)).1).getD (row.getD k 0) []) temp)
        (List.replicate pts.length 1))) := by
  have hdim : (P.basis.elements.headD []).length = d := headD_length_eq h0 hrows
  simp only [Poly.gradTensor, hdim]

lemma gradPolynomialGradient_multivariate {P : Poly} {d : ℕ} (pts : List (List ℚ))
    (h0 : P.basis.elements ≠ []) (hrows : ∀ r ∈ P.basis.elements, r.length = d)
    (hd : 2 ≤ d) :
    P.getPolynomialGradient pts = .multivariate (P.gradTensor pts) := by
  have hdim : (P.basis.elements.headD []).length = d := headD_length_eq h0 hrows
  simp only [Poly.getPolynomialGradient, hdim]
  rw [if_neg (by omega : ¬ d = 1)]

/-- C2: for a Basis with m rows and d ≥ 2 columns and an n × d point matrix,
getPolynomialGradient returns exactly d matrices, each m × n, and for
direction v the entry of basis row i at point j is the product over
dimensions k of the univariate value of degree basis[i, k], except that at
dimension k = v the univariate derivative value is used instead. -/
theorem claim_C2 (P : Poly) (pts : List (List ℚ)) (d : ℕ)
    (h0 : P.basis.elements ≠ [])
    (hrows : ∀ r ∈ P.basis.elements, r.length = d)
    (hd : 2 ≤ d)
    (hpts : ∀ r ∈ pts, r.length = d) :
    P.getPolynomialGradient pts = .multivariate (P.gradTensor pts)
    ∧ (P.gradTensor pts).length = d
    ∧ (∀ M ∈ P.gradTensor pts, M.length = P.basis.elements.length
        ∧ ∀ row ∈ M, row.length = pts.length)
    ∧ ∀ v i j, v < d → i < P.basis.elements.length → j < pts.length →
        (((P.gradTensor pts).getD v []).getD i []).getD j 0
          = ∏ k ∈ Finset.range d,
              (if k = v then (P.parameters.getD k default).orthoDeriv
                else (P.parameters.getD k default).orthoVal)
                ((P.basis.elements.getD i []).getD k 0)
                ((pts.getD j []).getD k 0) := by
  have _hpts := hpts
  have hmap := gradTensor_eq pts h0 hrows
  have key : ∀ v, ∀ r ∈ P.basis.elements, ∀ k, k < d →
      ((if k = v
          then ((P.parameters.getD k default).getOrthoPoly (col pts k)
              (maxCol P.basis.elements k + 1)).2
          else ((P.parameters.getD k default).getOrthoPoly (col pts k)
              (maxCol P.basis.elements k + 1)).1).getD (r.getD k 0) []).length
        = pts.length := by
    intro v r hr k _
    have hle : r.getD k 0 ≤ maxCol P.basis.elements k + 1 :=
      le_trans (mem_le_maxCol hr k) (Nat.le_succ _)
    by_cases hkv : k = v
    · rw [if_pos hkv, orthoTable_getD_deriv _ _ _ _ hle]
      simp [col]
    · rw [if_neg hkv, orthoTable_getD _ _ _ _ hle]
      simp [col]
  refine ⟨gradPolynomialGradient_multivariate pts h0 hrows hd,
    by rw [hmap, List.length_map, List.length_range], ?_, ?_⟩
  · intro M hM
    rw [hmap] at hM
    obtain ⟨v, _, rfl⟩ := List.mem_map.mp hM
    refine ⟨List.length_map _ _, ?_⟩
    intro row hrow
    obtain ⟨r, hr, rfl⟩ := List.mem_map.mp hrow
    exact (foldl_zipWith_spec _ _ d (key v r hr)).1
  · intro v i j hv hi hj
    rw [hmap, getD_map_of_lt _ _ (by simpa using hv) 0 []]
    have hvv : (List.range d).getD v 0 = v := by
      rw [List.getD_eq_getElem _ _ (by simpa using hv), List.getElem_range]
    rw [hvv]
    rw [getD_map_of_lt _ _ hi [] []]
    have hrmem : P.basis.elements.getD i [] ∈ P.basis.elements := by
      rw [List.getD_eq_getElem _ _ hi]
      exact List.getElem_mem hi
    rw [(foldl_zipWith_spec _ _ d (key v _ hrmem)).2 j hj]
    refine Finset.prod_congr rfl (fun k _ => ?_)
    have hle : (P.basis.elements.getD i []).getD k 0 ≤ maxCol P.basis.elements k + 1 :=
      le_trans (mem_le_maxCol hrmem k) (Nat.le_succ _)
    by_cases hkv : k = v
    · rw [if_pos hkv, if_pos hkv, orthoTable_getD_deriv _ _ _ _ hle]
      rw [getD_map_of_lt _ _ (by rw [length_col]; exact hj) 0 0]
      rw [col, getD_map_of_lt _ _ hj [] 0]
    · rw [if_neg hkv, if_neg hkv, orthoTable_getD _ _ _ _ hle]
      rw [getD_map_of_lt _ _ (by rw [length_col]; exact hj) 0 0]
      rw [col, getD_map_of_lt _ _ hj [] 0]

theorem claim_C2_witness :
    poly2.getPolynomialGradient [[2, 3]] = .multivariate (poly2.gradTensor [[2, 3]])
    ∧ (poly2.gradTensor [[2, 3]]).length = 2
    ∧ (((poly2.gradTensor [[2, 3]]).getD 1 []).getD 1 []).getD 0 0
        = ∏ k ∈ Finset.range 2,
            (if k = 1 then (poly2.parameters.getD k default).orthoDeriv
              else (poly2.parameters.getD k default).orthoVal)
              ((poly2.basis.elements.getD 1 []).getD k 0)
              ((([[2, 3]] : List (List ℚ)).getD 0 []).getD k 0) := by
  have h := claim_C2 poly2 [[2, 3]] 2 (by decide) (by decide) (by decide) (by decide)
  exact ⟨h.1, h.2.1, h.2.2.2 1 1 0 (by decide) (by decide) (by decide)⟩

lemma foldl_pair {α β γ : Type} (F : α → γ → α) (G : β → γ → β) (L : List γ)
    (a : α) (b : β) :
    L.foldl (fun s u => (F s.1 u, G s.2 u)) (a, b) = (L.foldl F a, L.foldl G b) := by
  induction L generalizing a b with
  | nil => rfl
  | cons x L ih =>
    simp only [List.foldl_cons]
    exact ih (F a x) (G b x)

lemma zipWith_replicate_left {α β γ : Type} (f : α → β → γ) (a : α) (l : List β) :
    List.zipWith f (List.replicate l.length a) l = l.map (f a) := by
  induction l with
  | nil => rfl
  | cons x l ih =>
    simp only [List.length_cons, List.replicate_succ, List.zipWith_cons_cons, List.map_cons]
    rw [ih]

lemma tensorStep_eq (pp : List (List ℚ)) (pts : List ℚ) :
    tensorStep pp pts = pp.flatMap (fun row => pts.map (fun x => row ++ [x])) := by
  induction pp with
  | nil => rfl
  | cons r pp ih =>
    unfold tensorStep kronRows tileVec at *
    simp only [List.flatMap_cons, List.length_cons, List.replicate_succ, List.flatten_cons]
    rw [List.zipWith_append _ _ _ _ _ (by simp)]
    rw [ih, zipWith_replicate_left]

lemma foldl_tensorStep (L : List (List ℚ)) :
    ∀ pp : List (List ℚ), L.foldl tensorStep pp
      = pp.flatMap (fun row => (specTensorPoints L).map (fun t => row ++ t)) := by
  induction L with
  | nil =>
    intro pp
    simp [specTensorPoints]
  | cons xs L ih =>
    intro pp
    rw [List.foldl_cons, ih (tensorStep pp xs), tensorStep_eq]
    simp only [specTensorPoints, List.flatMap_assoc, List.flatMap_map, List.map_flatMap,
      List.map_map]
    simp [Function.comp_def, List.append_assoc]

lemma npKronVec_one (b : List ℚ) : npKronVec [1] b = b := by
  simp [npKronVec]

lemma npKronVec_assoc (a b c : List ℚ) :
    npKronVec (npKronVec a b) c = npKronVec a (npKronVec b c) := by
  simp only [npKronVec, List.flatMap_assoc, List.flatMap_map, List.map_flatMap, List.map_map]
  simp [Function.comp, mul_assoc]

lemma foldl_npKronVec (L : List (List ℚ)) :
    ∀ w : List ℚ, L.foldl npKronVec w = npKronVec w (specKronWeights L) := by
  induction L with
  | nil =>
    intro w
    simp [specKronWeights, npKronVec]
  | cons ws L ih =>
    intro w
    rw [List.foldl_cons, ih (npKronVec w ws), specKronWeights,
      npKronVec_assoc w ws (specKronWeights L)]

lemma length_flatMap_map {α β γ : Type} (l : List α) (M : List β) (g : α → β → γ) :
    (l.flatMap (fun x => M.map (g x))).length = l.length * M.length := by
  induction l with
  | nil => simp
  | cons x l ih =>
    simp only [List.flatMap_cons, List.length_append, List.length_map, ih, List.length_cons]
    ring

lemma length_npKronVec (a b : List ℚ) :
    (npKronVec a b).length = a.length * b.length :=
  length_flatMap_map a b (fun x y => x * y)

lemma length_specKronWeights (L : List (List ℚ)) :
    (specKronWeights L).length = (L.map List.length).prod := by
  induction L with
  | nil => rfl
  | cons ws L ih =>
    simp only [specKronWeights, length_npKronVec, ih, List.map_cons, List.prod_cons]

lemma length_specTensorPoints (L : List (List ℚ)) :
    (specTensorPoints L).length = (L.map List.length).prod := by
  induction L with
  | nil => rfl
  | cons ps L ih =>
    simp only [specTensorPoints, length_flatMap_map, ih, List.map_cons, List.prod_cons]

lemma mem_specTensorPoints_length (L : List (List ℚ)) :
    ∀ r ∈ specTensorPoints L, r.length = L.length := by
  induction L with
  | nil =>
    intro r hr
    simp only [specTensorPoints, List.mem_singleton] at hr
    simp [hr]
  | cons ps L ih =>
    intro r hr
    simp only [specTensorPoints, List.mem_flatMap, List.mem_map] at hr
    obtain ⟨x, _, t, ht, rfl⟩ := hr
    simp [ih t ht]

lemma sum_map_mul (x : ℚ) (l : List ℚ) :
    (l.map (fun y => x * y)).sum = x * l.sum := by
  induction l with
  | nil => simp
  | cons y l ih => simp [ih, mul_add]

lemma sum_npKronVec (a b : List ℚ) : (npKronVec a b).sum = a.sum * b.sum := by
  induction a with
  | nil => simp [npKronVec]
  | cons x a ih =>
    simp only [npKronVec, List.flatMap_cons, List.sum_append, List.sum_cons] at *
    rw [ih, sum_map_mul, add_mul]

lemma sum_specKronWeights (L : List (List ℚ)) :
    (specKronWeights L).sum = (L.map List.sum).prod := by
  induction L with
  | nil => simp [specKronWeights]
  | cons ws L ih =>
    simp only [specKronWeights, sum_npKronVec, ih, List.map_cons, List.prod_cons]

lemma tensorRule_eq (P : Poly) (os : List ℕ) :
    P.getTensorQuadratureRule (some os)
      = (specTensorPoints ((List.range P.dimensions).map (fun u =>
            (P.parameters.getD u default).localQuadPoints (os.getD u 0 + 1))),
         specKronWeights ((List.range P.dimensions).map (fun u =>
            (P.parameters.getD u default).localQuadWeights (os.getD u 0 + 1)))) := by
  simp only [Poly.getTensorQuadratureRule, Option.getD_some]
  rw [foldl_pair (fun pp u => tensorStep pp
        ((P.parameters.getD u default).localQuadPoints (os.getD u 0 + 1)))
      (fun w u => npKronVec w
        ((P.parameters.getD u default).localQuadWeights (os.getD u 0 + 1)))]
  rw [← List.foldl_map (fun u =>
        (P.parameters.getD u default).localQuadPoints (os.getD u 0 + 1)) tensorStep]
  rw [← List.foldl_map (fun u =>
        (P.parameters.getD u default).localQuadWeights (os.getD u 0 + 1)) npKronVec]
  rw [foldl_tensorStep, foldl_npKronVec, npKronVec_one]
  refine Prod.ext ?_ rfl
  simp only [List.flatMap_cons, List.flatMap_nil, List.append_nil, List.map_map]
  simp [Function.comp_def]

/-- C3: the tensor-grid builder combines the per-dimension 1-D rules so that
the combined weight vector is the iterated Kronecker product of the
per-dimension weight vectors (count = product of per-dimension counts), and
the combined point matrix is the cartesian product with one row per
combination and one column per dimension, the same row count as the weight
vector, later-added columns varying faster (specTensorPoints puts each
earlier dimension in an outer, slower loop and the column added at each
step in the innermost, fastest loop). -/
theorem claim_C3 (P : Poly) (os : List ℕ)
    (hlen : os.length = P.dimensions)
    (hpw : ∀ u, u < P.dimensions →
      ((P.parameters.getD u default).localQuadPoints (os.getD u 0 + 1)).length
        = ((P.parameters.getD u default).localQuadWeights (os.getD u 0 + 1)).length) :
    (P.getTensorQuadratureRule (some os)).2
        = specKronWeights ((List.range P.dimensions).map (fun u =>
            (P.parameters.getD u default).localQuadWeights (os.getD u 0 + 1)))
    ∧ (P.getTensorQuadratureRule (some os)).1
        = specTensorPoints ((List.range P.dimensions).map (fun u =>
            (P.parameters.getD u default).localQuadPoints (os.getD u 0 + 1)))
    ∧ (P.getTensorQuadratureRule (some os)).1.length
        = (((List.range P.dimensions).map (fun u =>
            (P.parameters.getD u default).localQuadPoints (os.getD u 0 + 1))).map
            List.length).prod
    ∧ (∀ r ∈ (P.getTensorQuadratureRule (some os)).1, r.length = P.dimensions)
    ∧ (P.getTensorQuadratureRule (some os)).1.length
        = (P.getTensorQuadratureRule (some os)).2.length := by
  have _hlen := hlen
  rw [tensorRule_eq]
  refine ⟨rfl, rfl, ?_, ?_, ?_⟩
  · exact length_specTensorPoints _
  · intro r hr
    have h := mem_specTensorPoints_length _ r hr
    rw [h, List.length_map, List.length_range]
  · rw [length_specTensorPoints, length_specKronWeights]
    congr 1
    rw [List.map_map, List.map_map]
    refine List.map_congr_left (fun u hu => ?_)
    exact hpw u (List.mem_range.mp hu)

theorem claim_C3_witness :
    (poly2.getTensorQuadratureRule (some [1, 2])).1
        = [[10, 1], [10, 2], [10, 3], [20, 1], [20, 2], [20, 3]]
    ∧ (poly2.getTensorQuadratureRule (some [1, 2])).2
        = specKronWeights ((List.range poly2.dimensions).map (fun u =>
            (poly2.parameters.getD u default).localQuadWeights ([1, 2].getD u 0 + 1)))
    ∧ (poly2.getTensorQuadratureRule (some [1, 2])).1.length
        = (poly2.getTensorQuadratureRule (some [1, 2])).2.length := by
  have h := claim_C3 poly2 [1, 2] (by decide) (by decide)
  exact ⟨h.2.1.trans rfl, h.1, h.2.2.2.2⟩

/-- C4: if each per-dimension 1-D quadrature weight vector sums to 1, the
tensor-grid weight vector returned by getTensorQuadratureRule sums to 1,
for every dimension count and every per-dimension order. -/
theorem claim_C4 (P : Poly) (os : List ℕ)
    (hw : ∀ u, u < P.dimensions →
      ((P.parameters.getD u default).localQuadWeights (os.getD u 0 + 1)).sum = 1) :
    (P.getTensorQuadratureRule (some os)).2.sum = 1 := by
  rw [tensorRule_eq]
  simp only
  rw [sum_specKronWeights, List.map_map]
  refine List.prod_eq_one (fun x hx => ?_)
  simp only [List.mem_map, List.mem_range, Function.comp] at hx
  obtain ⟨u, hu, rfl⟩ := hx
  exact hw u hu

theorem claim_C4_witness : (poly2.getTensorQuadratureRule (some [1, 2])).2.sum = 1 :=
  claim_C4 poly2 [1, 2] (by
    intro u hu
    have hdim : poly2.dimensions = 2 := rfl
    rw [hdim] at hu
    have hu2 : u = 0 ∨ u = 1 := by omega
    rcases hu2 with rfl | rfl
    · show ([1, 0] : List ℚ).sum = 1
      simp
    · show ([0, 1, 0] : List ℚ).sum = 1
      simp)

lemma scaleInputs_entry (P : Poly) (x : List (List ℚ)) {j i : ℕ}
    (hj : j < x.length) (hi : i < (x.getD j []).length) (hpar : i < P.parameters.length) :
    ((P.scaleInputs x).getD j []).getD i 0
      = scaleOne (P.parameters.getD i default) ((x.getD j []).getD i 0) := by
  unfold Poly.scaleInputs
  rw [getD_map_of_lt _ _ hj [] []]
  rw [List.getD_eq_getElem _ _ (by simpa using hi), List.getElem_mapIdx]
  have h1 : P.parameters[i]? = some (P.parameters.getD i default) := by
    rw [List.getD_eq_getElem _ _ hpar]
    exact List.getElem?_eq_getElem hpar
  rw [h1, List.getD_eq_getElem _ _ hi]

/-- C5: scaleInputs transforms each entry by its column's distribution
kind: Uniform columns by 2*(x - lower)/(upper - lower) - 1 (lower maps to
-1, upper to 1), Beta columns by (x - lower)/(upper - lower) (lower maps to
0, upper to 1), and columns of any other kind are passed through
unchanged. -/
theorem claim_C5 (P : Poly) (x : List (List ℚ)) (j i : ℕ)
    (hj : j < x.length) (hi : i < (x.getD j []).length) (hpar : i < P.parameters.length) :
    ((P.parameters.getD i default).param_type = "Uniform" →
        ((P.scaleInputs x).getD j []).getD i 0
          = 2 * (((x.getD j []).getD i 0 - (P.parameters.getD i default).lower)
              / ((P.parameters.getD i default).upper - (P.parameters.getD i default).lower)) - 1
        ∧ ((P.parameters.getD i default).upper ≠ (P.parameters.getD i default).lower →
            ((x.getD j []).getD i 0 = (P.parameters.getD i default).lower →
              ((P.scaleInputs x).getD j []).getD i 0 = -1)
            ∧ ((x.getD j []).getD i 0 = (P.parameters.getD i default).upper →
              ((P.scaleInputs x).getD j []).getD i 0 = 1)))
    ∧ ((P.parameters.getD i default).param_type = "Beta" →
        ((P.scaleInputs x).getD j []).getD i 0
          = ((x.getD j []).getD i 0 - (P.parameters.getD i default).lower)
              / ((P.parameters.getD i default).upper - (P.parameters.getD i default).lower)
        ∧ ((P.parameters.getD i default).upper ≠ (P.parameters.getD i default).lower →
            ((x.getD j []).getD i 0 = (P.parameters.getD i default).lower →
              ((P.scaleInputs x).getD j []).getD i 0 = 0)
            ∧ ((x.getD j []).getD i 0 = (P.parameters.getD i default).upper →
              ((P.scaleInputs x).getD j []).getD i 0 = 1)))
    ∧ ((P.parameters.getD i default).param_type ≠ "Uniform" →
        (P.parameters.getD i default).param_type ≠ "Beta" →
        ((P.scaleInputs x).getD j []).getD i 0 = (x.getD j []).getD i 0) := by
  have hent := scaleInputs_entry P x hj hi hpar
  set prm := P.parameters.getD i default with hprm
  set v := (x.getD j []).getD i 0 with hv
  refine ⟨?_, ?_, ?_⟩
  · intro hU
    have hform : ((P.scaleInputs x).getD j []).getD i 0
        = 2 * ((v - prm.lower) / (prm.upper - prm.lower)) - 1 := by
      rw [hent, scaleOne, if_pos hU]
    refine ⟨hform, fun hne => ⟨fun hlo => ?_, fun hup => ?_⟩⟩
    · rw [hform, hlo, sub_self, zero_div, mul_zero, zero_sub]
    · rw [hform, hup, div_self (sub_ne_zero.mpr hne)]
      norm_num
  · intro hB
    have hnotU : prm.param_type ≠ "Uniform" := by
      rw [hB]
      decide
    have hform : ((P.scaleInputs x).getD j []).getD i 0
        = (v - prm.lower) / (prm.upper - prm.lower) := by
      rw [hent, scaleOne, if_neg hnotU, if_pos hB]
    refine ⟨hform, fun hne => ⟨fun hlo => ?_, fun hup => ?_⟩⟩
    · rw [hform, hlo, sub_self, zero_div]
    · rw [hform, hup, div_self (sub_ne_zero.mpr hne)]
  · intro hnU hnB
    rw [hent, scaleOne, if_neg hnU, if_neg hnB]

theorem claim_C5_witness :
    ((poly3.scaleInputs [[0, 3, 5]]).getD 0 []).getD 0 0 = -1
    ∧ ((poly3.scaleInputs [[0, 3, 5]]).getD 0 []).getD 1 0 = 1
    ∧ ((poly3.scaleInputs [[0, 3, 5]]).getD 0 []).getD 2 0 = 5 := by
  have h0 := claim_C5 poly3 [[0, 3, 5]] 0 0 (by decide) (by decide) (by decide)
  have h1 := claim_C5 poly3 [[0, 3, 5]] 0 1 (by decide) (by decide) (by decide)
  have h2 := claim_C5 poly3 [[0, 3, 5]] 0 2 (by decide) (by decide) (by decide)
  refine ⟨((h0.1 (by decide)).2 (by decide)).1 (by decide),
    ((h1.2.1 (by decide)).2 (by decide)).2 (by decide),
    h2.2.2 (by decide) (by decide)⟩

/-- C6: under the qmc option, getQuadratureRule returns N = 20000 points
(one column per dimension, column i filled from parameter i's samples) and
the uniform weight vector with every entry 1/N, whose sum is exactly 1. -/
theorem claim_C6 (P : Poly)
    (hs : ∀ prm ∈ P.parameters,
      (prm.getSamples defaultNumberOfPoints).length = defaultNumberOfPoints) :
    P.getQuadratureRule (some "qmc")
        = .ok (P.qmcPoints defaultNumberOfPoints,
            List.replicate defaultNumberOfPoints ((1 : ℚ) / defaultNumberOfPoints))
    ∧ (List.replicate defaultNumberOfPoints ((1 : ℚ) / defaultNumberOfPoints)).sum = 1
    ∧ (P.qmcPoints defaultNumberOfPoints).length = defaultNumberOfPoints
    ∧ (∀ r ∈ P.qmcPoints defaultNumberOfPoints, r.length = P.dimensions)
    ∧ ∀ j i, j < defaultNumberOfPoints → i < P.dimensions →
        ((P.qmcPoints defaultNumberOfPoints).getD j []).getD i 0
          = ((P.parameters.getD i default).getSamples defaultNumberOfPoints).getD j 0 := by
  have _hs := hs
  refine ⟨rfl, ?_, ?_, ?_, ?_⟩
  · rw [List.sum_replicate, nsmul_eq_mul]
    norm_num [defaultNumberOfPoints]
  · simp [Poly.qmcPoints]
  · intro r hr
    simp only [Poly.qmcPoints, List.mem_map] at hr
    obtain ⟨j, _, rfl⟩ := hr
    simp [Poly.dimensions]
  · intro j i hj hi
    rw [Poly.qmcPoints, getD_map_range _ hj, getD_map_range _ hi]

theorem claim_C6_witness :
    poly2.getQuadratureRule (some "qmc")
        = .ok (poly2.qmcPoints defaultNumberOfPoints,
            List.replicate defaultNumberOfPoints ((1 : ℚ) / defaultNumberOfPoints))
    ∧ (List.replicate defaultNumberOfPoints ((1 : ℚ) / defaultNumberOfPoints)).sum = 1
    ∧ (poly2.qmcPoints defaultNumberOfPoints).length = defaultNumberOfPoints := by
  have h := claim_C6 poly2 (by
    intro prm hprm
    have h2 : poly2.parameters = [qA, qB] := rfl
    rw [h2] at hprm
    have : prm = qA ∨ prm = qB := by simpa using hprm
    rcases this with rfl | rfl
    · simp [qA]
    · simp [qB])
  exact ⟨h.1, h.2.1, h.2.2.1⟩

/-- C7: when the basis has a single column, getPolynomialGradient takes the
shortcut path and returns the plain univariate value table (orthoVal up to
the parameter's default order), not derivative values. -/
theorem claim_C7 (P : Poly) (pts : List (List ℚ))
    (h1 : (P.basis.elements.headD []).length = 1) :
    P.getPolynomialGradient pts
      = .univariate ((List.range ((P.parameters.headD default).order + 1)).map
          (fun deg => (col pts 0).map ((P.parameters.headD default).orthoVal deg))) := by
  simp only [Poly.getPolynomialGradient, h1]
  rfl

theorem claim_C7_witness :
    poly1.getPolynomialGradient [[4], [7]]
      = .univariate ((List.range ((poly1.parameters.headD default).order + 1)).map
          (fun deg => (col [[4], [7]] 0).map ((poly1.parameters.headD default).orthoVal deg))) :=
  claim_C7 poly1 [[4], [7]] (by decide)

theorem claim_C8_counterexample :
    (mkPoly [] bas0).coefficients = none
    ∧ (mkPoly [] bas0).evaluatePolyGradFit [[1]] = .ok []
    ∧ (mkPoly [] bas0).evaluatePolyGradFit [[1]] ≠ .exn "NotFitted" := by
  refine ⟨rfl, rfl, ?_⟩
  intro h
  exact PyResult.noConfusion h

/-- C8 (amended): clone returns a new core object with the same Parameter
list and (for any constructor-built object, whose basis orders already
match the parameters' orders) the same Basis, with no coefficients and no
design matrix.  With coefficients unset and well-formed inputs (nonempty
basis table whose column count is at most the parameter count, query rows
at least as wide as the parameter list), evaluatePolyFit fails with
NotFitted, and evaluatePolyGradFit fails with NotFitted provided the
object has at least one dimension: with zero parameters and a zero-column
basis the gradient computation performs no parameter access, its
per-dimension loop never reads the coefficients, and the call returns an
empty result instead of failing.  When the basis column count exceeds the
parameter count, both evaluators fail with IndexError from the basis and
gradient computation before the coefficients are ever read. -/
theorem claim_C8_amended (P : Poly) (x y : List (List ℚ))
    (hb : P.basis.orders = P.parameters.map (fun prm => prm.order))
    (hne : P.basis.elements ≠ [])
    (hcov : (P.basis.elements.headD []).length ≤ P.parameters.length)
    (hx : ∀ r ∈ x, P.parameters.length ≤ r.length)
    (hy : ∀ r ∈ y, P.parameters.length ≤ r.length) :
    P.clone.parameters = P.parameters
    ∧ P.clone.basis = P.basis
    ∧ P.clone.coefficients = none
    ∧ P.clone.designMatrix = none
    ∧ P.clone.evaluatePolyFit x = .exn "NotFitted"
    ∧ (0 < P.dimensions → P.clone.evaluatePolyGradFit y = .exn "NotFitted")
    ∧ (∀ Q : Poly, Q.coefficients = none → Q.basis.elements ≠ [] →
        (Q.basis.elements.headD []).length ≤ Q.parameters.length →
        (∀ r ∈ x, Q.parameters.length ≤ r.length) →
        Q.evaluatePolyFit x = .exn "NotFitted")
    ∧ (∀ Q : Poly, Q.coefficients = none → Q.basis.elements ≠ [] →
        (Q.basis.elements.headD []).length ≤ Q.parameters.length →
        (∀ r ∈ y, Q.parameters.length ≤ r.length) →
        0 < Q.dimensions → Q.evaluatePolyGradFit y = .exn "NotFitted")
    ∧ (∀ Q : Poly, ¬ ((Q.basis.elements.headD []).length ≤ Q.parameters.length) →
        Q.evaluatePolyFit x = .exn "IndexError"
        ∧ Q.evaluatePolyGradFit y = .exn "IndexError") := by
  have _hne := hne
  have _hx := hx
  have _hy := hy
  have hfit : ∀ Q : Poly, Q.coefficients = none →
      (Q.basis.elements.headD []).length ≤ Q.parameters.length →
      Q.evaluatePolyFit x = .exn "NotFitted" := by
    intro Q hQ hc
    unfold Poly.evaluatePolyFit
    rw [if_pos hc, hQ]
  have hgrad : ∀ Q : Poly, Q.coefficients = none →
      (Q.basis.elements.headD []).length ≤ Q.parameters.length →
      0 < Q.dimensions → Q.evaluatePolyGradFit y = .exn "NotFitted" := by
    intro Q hQ hc hd
    unfold Poly.evaluatePolyGradFit
    rw [if_pos hc, if_neg (by omega : ¬ Q.dimensions = 0), hQ]
  have hidx : ∀ Q : Poly, ¬ ((Q.basis.elements.headD []).length ≤ Q.parameters.length) →
      Q.evaluatePolyFit x = .exn "IndexError"
      ∧ Q.evaluatePolyGradFit y = .exn "IndexError" := by
    intro Q hc
    constructor
    · unfold Poly.evaluatePolyFit
      rw [if_neg hc]
    · unfold Poly.evaluatePolyGradFit
      rw [if_neg hc]
  refine ⟨rfl, ?_, rfl, rfl, hfit _ rfl hcov, fun hd => hgrad _ rfl hcov hd,
    fun Q hQ _ hc _ => hfit Q hQ hc, fun Q hQ _ hc _ hd => hgrad Q hQ hc hd, hidx⟩
  · show (mkPoly P.parameters P.basis).basis = P.basis
    unfold mkPoly Basis.setOrders
    rw [← hb]

theorem claim_C8_witness :
    poly2.clone.parameters = poly2.parameters
    ∧ poly2.clone.basis = poly2.basis
    ∧ poly2.clone.coefficients = none
    ∧ poly2.clone.evaluatePolyFit [[0, 0]] = .exn "NotFitted"
    ∧ poly2.clone.evaluatePolyGradFit [[0, 0]] = .exn "NotFitted"
    ∧ (mkPoly [] bas1).evaluatePolyGradFit [[0, 0]] = .exn "IndexError" := by
  have h := claim_C8_amended poly2 [[0, 0]] [[0, 0]]
    (by decide) (by decide) (by decide) (by decide) (by decide)
  exact ⟨h.1, h.2.1, h.2.2.1, h.2.2.2.2.1, h.2.2.2.2.2.1 (by decide),
    (h.2.2.2.2.2.2.2.2 (mkPoly [] bas1) (by decide)).2⟩

theorem claim_C9_counterexample :
    poly2.getQuadratureRule (some "sparse grid") = PyResult.noneVal
    ∧ (poly2.getQuadratureRule (some "sparse grid")).isError = false := by
  exact ⟨rfl, rfl⟩

/-- C9 (amended): a getQuadratureRule call with an explicit rule-selection
string that is neither the tensor-grid option nor the quasi-random option
raises no error at all: the function falls off the end and returns None,
producing neither a rule nor an UnsupportedQuadratureOption report, so the
misuse surfaces only when the caller uses the missing result. -/
theorem claim_C9_amended (P : Poly) (s : String)
    (h1 : pyLower s ≠ "qmc") (h2 : pyLower s ≠ "tensor grid") :
    P.getQuadratureRule (some s) = PyResult.noneVal
    ∧ (P.getQuadratureRule (some s)).isError = false := by
  have hrule : P.getQuadratureRule (some s) = PyResult.noneVal := by
    simp only [Poly.getQuadratureRule]
    rw [if_neg h1, if_neg h2]
  exact ⟨hrule, by rw [hrule]; rfl⟩

theorem claim_C9_witness :
    poly1.getQuadratureRule (some "monte carlo") = PyResult.noneVal
    ∧ (poly1.getQuadratureRule (some "monte carlo")).isError = false :=
  claim_C9_amended poly1 "monte carlo" (by decide) (by decide)

theorem claim_C10_counterexample : (mkPoly [qA] bas1).basis ≠ bas1 := by
  decide

/-- C10 (amended): construction of the core object does modify the Basis:
Poly.__init__ calls setOrders on it, replacing its per-dimension orders
with the Parameters' orders (a state change whenever they differed).  After
construction the Basis state is stable: clone, the only core operation that
runs setOrders again, rewrites the same orders and therefore leaves the
already-updated Basis unchanged, and no other core operation touches the
Basis. -/
theorem claim_C10_amended (ps : List Parameter) (b : Basis) :
    (mkPoly ps b).basis = b.setOrders (ps.map (fun prm => prm.order))
    ∧ (mkPoly ps b).clone.basis = (mkPoly ps b).basis := by
  refine ⟨rfl, ?_⟩
  show (mkPoly ps (b.setOrders (ps.map (fun prm => prm.order)))).basis
      = b.setOrders (ps.map (fun prm => prm.order))
  unfold mkPoly Basis.setOrders
  rfl

end EQPoly
